import Mathlib

set_option maxRecDepth 100000

/-!
Verification of the puslib core against its natural-language specification.

The Python sources are embedded shallowly: machine integers become `Nat`/`Int`
with explicit masking where Python masks, byte strings become `List Nat`,
`None`-able parameters become `Option`, and raising code returns `Except`.
Python `datetime` values are modelled as integer microseconds relative to the
TAI epoch (the actual resolution of `datetime`); exact rational arithmetic
stands in for Python's float arithmetic on elapsed seconds.
-/

namespace Puslib

/-! ## CRC-16/CCITT (embedding of `puslib/crc_ccitt.py`) -/

/-- Value of `_POLYNOMIAL` in `crc_ccitt.py`. -/
def crcPolynomial : Nat := 0x1021

/-- Value of `_PRESET` in `crc_ccitt.py`. -/
def crcPreset : Nat := 0xffff

/-- Loop body of `_initial`: `n` remaining iterations over state `(crc, c)`.
Mirrors the Python loop, which never masks `crc` to 16 bits. -/
def initialAux : Nat → Nat → Nat → Nat
  | 0, crc, _ => crc
  | n + 1, crc, c =>
    let tmp := crc <<< 1
    let tmp := if ((crc ^^^ c) &&& 0x8000) ≠ 0 then tmp ^^^ crcPolynomial else tmp
    initialAux n tmp (c <<< 1)

/-- Embedding of `_initial(c)`. -/
def initial (c : Nat) : Nat := initialAux 8 0 (c <<< 8)

/-- Embedding of the module-level table `_tab = [_initial(i) for i in range(256)]`. -/
def tab : List Nat := (List.range 256).map initial

/-- Embedding of `_update_crc(crc, byte)`. -/
def updateCrc (crc byte : Nat) : Nat :=
  let byte := byte &&& 0xff
  let tmp := (crc >>> 8) ^^^ byte
  ((crc <<< 8) ^^^ tab.getD (tmp &&& 0xff) 0) &&& 0xffff

/-- Embedding of `calculate(buffer)`. -/
def calculate (buffer : List Nat) : Nat :=
  buffer.foldl updateCrc crcPreset

/-! Bit-serial reference CRC, written from the spec's words: polynomial
`0x1021`, initial value `0xFFFF`, MSB-first, no final XOR. -/

/-- Bit-serial CRC step from the spec: shift the 16-bit register left by one,
and XOR in the polynomial exactly when the shifted-out top bit differs from
the incoming data bit. -/
def crcBitStep (crc : Nat) (b : Bool) : Nat :=
  let shifted := (crc <<< 1) &&& 0xffff
  if crc.testBit 15 ≠ b then shifted ^^^ 0x1021 else shifted

/-- Folds a list of data bits (MSB first) through `crcBitStep`. -/
def crcBits (crc : Nat) (bs : List Bool) : Nat := bs.foldl crcBitStep crc

/-- Bits of one byte, most significant first. -/
def byteBits (b : Nat) : List Bool :=
  [b.testBit 7, b.testBit 6, b.testBit 5, b.testBit 4,
   b.testBit 3, b.testBit 2, b.testBit 1, b.testBit 0]

/-- Bit-serial CRC over one byte. -/
def crcSpecUpdate (crc byte : Nat) : Nat := crcBits crc (byteBits byte)

/-- Bit-serial CRC over a buffer, from the spec: initial value `0xFFFF`,
MSB-first bytes and bits, no final XOR. -/
def crcSpec (buffer : List Nat) : Nat :=
  buffer.foldl crcSpecUpdate 0xffff


/-- Value of a bit list read MSB-first. -/
def ofBits : List Bool → Nat
  | [] => 0
  | b :: rest => (b.toNat <<< rest.length) ^^^ ofBits rest

/-! ## CUC time (embedding of `puslib/time.py`)

Python `datetime` values are modelled as exact integer microseconds relative
to the TAI epoch (`datetime(1958, 1, 1)`), which is the full resolution of
`datetime`; elapsed seconds, a Python float in the source, are modelled as the
exact rational value. Python `round` (round half to even) is modelled by
`pyRoundDiv` on exact quotients. -/

/-- Value of `TimeCodeIdentification.TAI`. -/
def tcIdTAI : Nat := 0b001

/-- Value of `TimeCodeIdentification.AGENCY_DEFINED`. -/
def tcIdAgencyDefined : Nat := 0b010

/-- Value of `TAI_EPOCH`, `datetime(1958, 1, 1)`, as microseconds on our axis. -/
def taiEpoch : Int := 0

instance {ε α : Type} [DecidableEq ε] [DecidableEq α] : DecidableEq (Except ε α) :=
  fun a b =>
    match a, b with
    | .ok x, .ok y =>
      if h : x = y then isTrue (by rw [h])
      else isFalse (by intro hc; cases hc; exact h rfl)
    | .error x, .error y =>
      if h : x = y then isTrue (by rw [h])
      else isFalse (by intro hc; cases hc; exact h rfl)
    | .ok _, .error _ => isFalse (by intro hc; cases hc)
    | .error _, .ok _ => isFalse (by intro hc; cases hc)

/-- Embedding of the `_TimeFormat` object state. -/
structure TimeFormat where
  basicUnitLength : Nat
  fracUnitLength : Nat
  epoch : Int
  timeCodeId : Nat
  preamble : List Nat
  deriving DecidableEq

/-- Embedding of `_TimeFormat._pack_preamble`. -/
def packPreamble (basicUnitLength fracUnitLength timeCodeId : Nat) : List Nat :=
  let pFieldExtension := if basicUnitLength > 4 ∨ fracUnitLength > 3 then 1 else 0
  let basicTimeUnitNumOctets := min 3 (basicUnitLength - 1)
  let basicFracUnitNumOctets := min 3 fracUnitLength
  let basicTimeUnitAdditionalOctet := basicUnitLength - 4
  let basicFracUnitAdditionalOctet := fracUnitLength - 3
  let octet1 := (pFieldExtension <<< 7) ||| (timeCodeId <<< 4) |||
    (basicTimeUnitNumOctets <<< 2) ||| basicFracUnitNumOctets
  if pFieldExtension ≠ 0 then
    [octet1, (basicTimeUnitAdditionalOctet <<< 5) ||| (basicFracUnitAdditionalOctet <<< 2)]
  else
    [octet1]

/-- Epoch stored by `_TimeFormat.__init__`: the given one, defaulting to TAI
when none is given (Python truthiness on `None`). -/
def epochOf : Option Int → Int
  | some e => e
  | none => taiEpoch

/-- Time code id chosen by `_TimeFormat.__init__`. -/
def tcIdOf : Option Int → Nat
  | some _ => tcIdAgencyDefined
  | none => tcIdTAI

/-- Preamble stored by `_TimeFormat.__init__`: the supplied one if truthy
(non-empty), else the packed one. -/
def preambleOf (basicUnitLength fracUnitLength : Nat) (epoch : Option Int)
    (preamble : Option (List Nat)) : List Nat :=
  match preamble with
  | some p => if p ≠ [] then p
              else packPreamble basicUnitLength fracUnitLength (tcIdOf epoch)
  | none => packPreamble basicUnitLength fracUnitLength (tcIdOf epoch)

/-- Embedding of `_TimeFormat.__init__`: validates unit lengths, defaults the
epoch to TAI when none is given, picks the time code id, and packs the
preamble unless a non-empty one is supplied. -/
def mkTimeFormat (basicUnitLength fracUnitLength : Nat) (epoch : Option Int)
    (preamble : Option (List Nat)) : Except String TimeFormat :=
  if ¬(1 ≤ basicUnitLength ∧ basicUnitLength ≤ 7) then
    .error "Basic time unit must be 1 to 7 octets"
  else if ¬(fracUnitLength ≤ 10) then
    .error "Fractional time unit must be 0 to 10 octets"
  else
    .ok ⟨basicUnitLength, fracUnitLength, epochOf epoch, tcIdOf epoch,
      preambleOf basicUnitLength fracUnitLength epoch preamble⟩

/-- Embedding of the `CucTime` object state. The `fraction` field is `none`
exactly when the Python `_fraction` attribute is `None`. -/
structure CucTime where
  format : TimeFormat
  hasPreamble : Bool
  seconds : Int
  fraction : Option Int
  deriving DecidableEq

/-- Embedding of `CucTime.__init__`: builds the time format (validating unit
lengths), then stores `seconds` and `fraction` verbatim, except that
`fraction` becomes `None` when the fractional unit length is zero. -/
def cucInit (seconds fraction : Int) (basicUnitLength fracUnitLength : Nat)
    (hasPreamble : Bool) (epoch : Option Int) (preamble : Option (List Nat)) :
    Except String CucTime :=
  (mkTimeFormat basicUnitLength fracUnitLength epoch preamble).map fun fmt =>
    { format := fmt, hasPreamble := hasPreamble, seconds := seconds,
      fraction := if fmt.fracUnitLength ≠ 0 then some fraction else none }

/-- Embedding of `CucTime.__float__`. When the Python `_fraction` attribute is
`None` (fractional unit length zero), the expression
`self._seconds + self._fraction / 2 ** (...)` raises `TypeError`, modelled as
`none`. -/
def cucFloat (ct : CucTime) : Option ℚ :=
  ct.fraction.map fun fr =>
    (ct.seconds : ℚ) + (fr : ℚ) / ((2 : ℚ) ^ (ct.format.fracUnitLength * 8))

/-- Embedding of the `CucTime.seconds` property setter. The input is `none`
for a non-`int` Python value. Returns the post-call object state and the
raised error message, if any. -/
def setSeconds (ct : CucTime) (val : Option Int) : CucTime × Option String :=
  let maxVal : Int := 2 ^ (ct.format.basicUnitLength * 8) - 1
  match val with
  | some v =>
    if 0 ≤ v ∧ v ≤ maxVal then ({ ct with seconds := v }, none)
    else (ct, some "Seconds must be an integer between 0 and the field maximum")
  | none => (ct, some "Seconds must be an integer between 0 and the field maximum")

/-- Embedding of the `CucTime.fraction` property setter. -/
def setFraction (ct : CucTime) (val : Option Int) : CucTime × Option String :=
  if ct.format.fracUnitLength = 0 then
    (ct, some "CUC time configured without fraction part")
  else
    let maxVal : Int := 2 ^ (ct.format.fracUnitLength * 8) - 1
    match val with
    | some v =>
      if 0 ≤ v ∧ v ≤ maxVal then ({ ct with fraction := some v }, none)
      else (ct, some "Fraction must be an integer between 0 and the field maximum")
    | none => (ct, some "Fraction must be an integer between 0 and the field maximum")

/-- Embedding of the `CucTime.time_field` property. -/
def timeField (ct : CucTime) : Int × Option Int := (ct.seconds, ct.fraction)

/-- Microseconds per second, the resolution of Python `datetime`. -/
def usPerSec : Int := 1000000

/-- Python `round` on an exact quotient `a / b` (with `b > 0`): round half to
even, in integer arithmetic. -/
def pyRoundDiv (a b : Int) : Int :=
  let q := a / b
  let r := a % b
  if 2 * r < b then q
  else if b < 2 * r then q + 1
  else if q % 2 = 0 then q else q + 1

/-- Python `round` on an exact rational: round half to even. -/
def pyRoundQ (q : ℚ) : Int :=
  let n := ⌊q⌋
  let r := q - n
  if r < 1 / 2 then n
  else if 1 / 2 < r then n + 1
  else if n % 2 = 0 then n else n + 1

/-- Embedding of `CucTime.from_datetime(dt)`, with `dt` in microseconds. As in
the source, it fails when `dt` precedes the epoch; otherwise it splits the
elapsed time `modf`-style when a fraction field exists (rounding the fraction)
and rounds the seconds directly when not, returning the exact elapsed-seconds
value alongside the updated object. -/
def fromDatetime (ct : CucTime) (dt : Int) : Except String (CucTime × ℚ) :=
  if dt < ct.format.epoch then .error "Cannot set CUC to before epoch"
  else
    let d := dt - ct.format.epoch
    let elapsed : ℚ := mkRat d 1000000
    if ct.format.fracUnitLength ≠ 0 then
      let secs := d / usPerSec
      let fracUs := d % usPerSec
      let fr := pyRoundDiv (fracUs * (2 ^ (ct.format.fracUnitLength * 8) - 1)) usPerSec
      .ok ({ ct with seconds := secs, fraction := some fr }, elapsed)
    else
      .ok ({ ct with seconds := pyRoundDiv d usPerSec }, elapsed)

/-- Big-endian value of a byte slice (`int.from_bytes(..., byteorder='big')`). -/
def fromBytesBE (l : List Nat) : Nat :=
  l.foldl (fun acc b => acc * 256 + b) 0

/-- Embedding of `_TimeFormat.deserialize`. The Python code passes the parsed
3-bit time-code field as the `epoch` argument of `_TimeFormat.__init__` (an
`int` where a `datetime` is expected); its truthiness decides the time code
id, and the raw value is stored as the epoch, which we mirror. -/
def tfDeserialize (buffer : List Nat) : Except String TimeFormat :=
  if buffer.length < 2 then .error "Buffer too small to contain CUC"
  else
    let octet1 := buffer.getD 0 0
    let octet2 := buffer.getD 1 0
    let pFieldExtension := octet1 >>> 7
    let basicUnitLength := ((octet1 >>> 2) &&& 0b11) + 1 +
      (if pFieldExtension ≠ 0 then (octet2 >>> 5) &&& 0b11 else 0)
    let fracUnitLength := (octet1 &&& 0b11) +
      (if pFieldExtension ≠ 0 then (octet2 >>> 2) &&& 0b111 else 0)
    let epochId := (octet1 >>> 4) &&& 0b111
    let preamble := [octet1] ++ (if pFieldExtension ≠ 0 then [octet2] else [])
    mkTimeFormat basicUnitLength fracUnitLength
      (if epochId ≠ 0 then some (epochId : Int) else none) (some preamble)

/-- Python truthiness of an optional integer argument: `None` and `0` are
falsy. -/
def truthyNat (v : Option Nat) : Bool :=
  match v with
  | none => false
  | some n => n != 0

/-- Embedding of `CucTime.deserialize`. -/
def cucDeserialize (buffer : List Nat) (hasPreamble : Bool) (epoch : Option Int)
    (basicUnitLength fracUnitLength : Option Nat) : Except String CucTime :=
  if buffer.length < 2 then .error "Buffer too small to contain CUC"
  else if (!hasPreamble && !(truthyNat basicUnitLength && truthyNat fracUnitLength)) = true then
    .error "If preamble not used CUC must be defined by the other arguments"
  else if hasPreamble then
    match tfDeserialize buffer with
    | .error e => .error e
    | .ok tf =>
      let b := tf.basicUnitLength
      let f := tf.fracUnitLength
      let preambleSize := tf.preamble.length
      if buffer.length < preambleSize + b + f then
        .error "Buffer too small to contain CUC"
      else
        let secs := fromBytesBE ((buffer.drop preambleSize).take b)
        let fr := fromBytesBE ((buffer.drop (preambleSize + b)).take f)
        cucInit secs fr b f hasPreamble epoch (some tf.preamble)
  else
    let b := basicUnitLength.getD 0
    let f := fracUnitLength.getD 0
    if buffer.length < b + f then
      .error "Buffer too small to contain CUC"
    else
      let secs := fromBytesBE (buffer.take b)
      let fr := fromBytesBE ((buffer.drop b).take f)
      cucInit secs fr b f hasPreamble epoch none

/-- Embedding of `CucTime.create`, with the wall clock `datetime.now()`
passed explicitly as `now` (microseconds). -/
def cucCreate (seconds fraction : Int) (basicUnitLength fracUnitLength : Nat)
    (hasPreamble : Bool) (epoch : Option Int) (preamble : Option (List Nat))
    (now : Int) : Except String CucTime :=
  match cucInit seconds fraction basicUnitLength fracUnitLength hasPreamble epoch preamble with
  | .error e => .error e
  | .ok ct =>
    if seconds = 0 ∧ fraction = 0 then
      match fromDatetime ct now with
      | .error e => .error e
      | .ok (ctNew, _) => .ok ctNew
    else .ok ct

/-! ## PUS TC packet surface and request verification service

`puslib/packet.py` is not among the provided sources; the packet surface the
service and the serialization vectors depend on is modelled from the spec. -/

/-- Modelled from the spec: `AckFlag.ACCEPTANCE`, one independently settable
bit of the 4-bit acknowledgment mask (low nibble of the first secondary
header byte, confirmed by the spec's concrete wire vectors). -/
def ackAcceptance : Nat := 0b0001

/-- Modelled from the spec: `AckFlag.START_OF_EXECUTION`. -/
def ackStartOfExecution : Nat := 0b0010

/-- Modelled from the spec: `AckFlag.PROGRESS`. -/
def ackProgress : Nat := 0b0100

/-- Modelled from the spec: `AckFlag.COMPLETION`. -/
def ackCompletion : Nat := 0b1000

/-- Modelled from the spec: the TC packet fields the verification service
reads (`packet.py` is not among the provided sources). -/
structure PusTcPacketRep where
  apid : Nat
  seqCountOrName : Nat
  ackFlags : Nat
  deriving DecidableEq

/-- Modelled from the spec: `PusTcPacket.ack(flag)` is true iff the flag bit
is set in the packet's ack-flags mask. -/
def PusTcPacketRep.ack (p : PusTcPacketRep) (flag : Nat) : Bool :=
  (p.ackFlags &&& flag) != 0

/-- Modelled from the spec: `PusTcPacket.request_id()`, the byte encoding of
the (APID, sequence count) pair carried as the payload prefix of every
verification report. -/
def PusTcPacketRep.requestId (p : PusTcPacketRep) : List Nat :=
  [(p.apid >>> 8) &&& 0xff, p.apid &&& 0xff,
   (p.seqCountOrName >>> 8) &&& 0xff, p.seqCountOrName &&& 0xff]

/-- Values of `_SubService` in `pus_001_request_verification.py`. -/
def subSuccessfulAcceptance : Nat := 1

/-- Value of `_SubService.FAILED_ACCEPTANCE_VERIFICATION`. -/
def subFailedAcceptance : Nat := 2

/-- Value of `_SubService.SUCCESSFUL_START_OF_EXECUTION_VERIFICATION`. -/
def subSuccessfulStart : Nat := 3

/-- Value of `_SubService.FAILED_START_OF_EXECUTION_VERIFICATION`. -/
def subFailedStart : Nat := 4

/-- Value of `_SubService.SUCCESSFUL_PROGRESS_OF_EXECUTION_VERIFICATION`. -/
def subSuccessfulProgress : Nat := 5

/-- Value of `_SubService.FAILED_PROGRESS_OF_EXECUTION_VERIFICATION`. -/
def subFailedProgress : Nat := 6

/-- Value of `_SubService.SUCCESSFUL_COMPLETION_OF_EXECUTION_VERIFICATION`. -/
def subSuccessfulCompletion : Nat := 7

/-- Value of `_SubService.FAILED_COMPLETION_OF_EXECUTION_VERIFICATION`. -/
def subFailedCompletion : Nat := 8

/-- Modelled from the spec: `CommonErrorCode` (`error_codes.py` is not among
the provided sources). The spec names only the default code,
`ILLEGAL_APP_DATA` ("illegal application data"); its numeric value is taken
as a nonzero byte so the Python truthiness test `if not failure_code` is
equivalent to a `None` test. -/
inductive CommonErrorCode where
  | illegalAppData
  deriving DecidableEq

/-- Modelled from the spec: the `.value` of a `CommonErrorCode` member. -/
def CommonErrorCode.val : CommonErrorCode → Nat
  | .illegalAppData => 1

/-- Modelled from the spec: the byte width of the policy's
`request_verification.failure_code_type` (`UInt8Parameter`, one byte). -/
def failureCodeWidth : Nat := 1

/-- Big-endian bytes of `v` over `w` octets (`int.to_bytes(w, 'big')`). -/
def toBytesBE (w v : Nat) : List Nat :=
  (List.range w).reverse.map fun i => (v >>> (8 * i)) &&& 0xff

/-- Embedding of a verification report as produced by
`RequestVerification._generate_report` and written to the output stream. -/
structure VerifReport where
  apid : Nat
  seqCount : Nat
  time : CucTime
  serviceType : Nat
  serviceSubtype : Nat
  payload : List Nat
  deriving DecidableEq

/-- Embedding of `RequestVerification._generate_report`. The service identity
(`self._ident`) and the policy clock sample (`get_policy().CucTime()`) enter
as explicit arguments. The Python truthiness test `if not failure_code`
replaces both `None` and a zero-valued code by `ILLEGAL_APP_DATA`. -/
def generateReport (identApid identSeqCount : Nat) (time : CucTime)
    (packet : PusTcPacketRep) (subservice : Nat) (success : Bool)
    (failureCode : Option CommonErrorCode) (failureData : Option (List Nat)) :
    VerifReport :=
  let payload := packet.requestId
  let payload :=
    if success then payload
    else
      let code := match failureCode with
        | none => CommonErrorCode.illegalAppData
        | some c => if c.val = 0 then CommonErrorCode.illegalAppData else c
      payload ++ toBytesBE failureCodeWidth code.val ++ (failureData.getD [])
  { apid := identApid, seqCount := identSeqCount, time := time,
    serviceType := 1, serviceSubtype := subservice, payload := payload }

/-- Embedding of `RequestVerification.accept`: `none` means the call returned
without writing a report to the output stream (not an error). -/
def accept (identApid identSeqCount : Nat) (time : CucTime)
    (packet : PusTcPacketRep) (success : Bool)
    (failureCode : Option CommonErrorCode) (failureData : Option (List Nat)) :
    Option VerifReport :=
  if ¬packet.ack ackAcceptance then none
  else some (generateReport identApid identSeqCount time packet
    (if success then subSuccessfulAcceptance else subFailedAcceptance)
    success failureCode failureData)

/-- Embedding of `RequestVerification.start`. -/
def start (identApid identSeqCount : Nat) (time : CucTime)
    (packet : PusTcPacketRep) (success : Bool)
    (failureCode : Option CommonErrorCode) (failureData : Option (List Nat)) :
    Option VerifReport :=
  if ¬packet.ack ackStartOfExecution then none
  else some (generateReport identApid identSeqCount time packet
    (if success then subSuccessfulStart else subFailedStart)
    success failureCode failureData)

/-- Embedding of `RequestVerification.progress`. -/
def progress (identApid identSeqCount : Nat) (time : CucTime)
    (packet : PusTcPacketRep) (success : Bool)
    (failureCode : Option CommonErrorCode) (failureData : Option (List Nat)) :
    Option VerifReport :=
  if ¬packet.ack ackProgress then none
  else some (generateReport identApid identSeqCount time packet
    (if success then subSuccessfulProgress else subFailedProgress)
    success failureCode failureData)

/-- Embedding of `RequestVerification.complete`. -/
def complete (identApid identSeqCount : Nat) (time : CucTime)
    (packet : PusTcPacketRep) (success : Bool)
    (failureCode : Option CommonErrorCode) (failureData : Option (List Nat)) :
    Option VerifReport :=
  if ¬packet.ack ackCompletion then none
  else some (generateReport identApid identSeqCount time packet
    (if success then subSuccessfulCompletion else subFailedCompletion)
    success failureCode failureData)

/-- Big-endian 16-bit word as two bytes. -/
def word16be (n : Nat) : List Nat := [(n >>> 8) &&& 0xff, n &&& 0xff]

/-- Modelled from the spec: serialization of a PUS TC packet following the
spec's wire-format table (3-bit version 0, packet type 1 = TC, secondary
header flag 1, 11-bit APID; 2-bit sequence flags 0b11, 14-bit sequence name;
16-bit data length = payload bytes − 1 including the optional PEC; secondary
header `version.ack`, service, subtype, optional source byte; then data and
the optional CRC over all preceding bytes). `packet.py` is not among the
provided sources. -/
def pusTcSerialize (apid seqName pusVersion ackFlags service subtype : Nat)
    (source : Option Nat) (data : List Nat) (hasPec : Bool) : List Nat :=
  let secondaryHeader :=
    [((pusVersion &&& 0xf) <<< 4) ||| (ackFlags &&& 0xf), service, subtype] ++
      (match source with
        | some s => [s]
        | none => []) ++ data
  let dataLength := secondaryHeader.length + (if hasPec then 2 else 0) - 1
  let primaryHeader :=
    [(1 <<< 4) ||| (1 <<< 3) ||| ((apid >>> 8) &&& 0b111), apid &&& 0xff,
     (0b11 <<< 6) ||| ((seqName >>> 8) &&& 0b111111), seqName &&& 0xff] ++
      word16be dataLength
  let body := primaryHeader ++ secondaryHeader
  body ++ (if hasPec then word16be (calculate body) else [])

/-- Time format of the policy default configuration (4-byte seconds, 2-byte
fraction, TAI epoch, packed one-byte preamble `0x1E`). -/
def sampleFormat : TimeFormat :=
  { basicUnitLength := 4, fracUnitLength := 2, epoch := 0,
    timeCodeId := 1, preamble := [0x1E] }

/-- Concrete `CucTime` as built by `cucInit 0 0 4 2 true none none`. -/
def sampleCuc : CucTime :=
  { format := sampleFormat, hasPreamble := true, seconds := 0, fraction := some 0 }

/-- Concrete `CucTime` as built by `cucInit 5 7 4 2 true none none`. -/
def sampleCuc57 : CucTime :=
  { format := sampleFormat, hasPreamble := true, seconds := 5, fraction := some 7 }

/-- Concrete `CucTime` with an out-of-range seconds value, as built by
`cucInit 4294967296 0 4 2 true none none`. -/
def bigSecondsCuc : CucTime :=
  { format := sampleFormat, hasPreamble := true, seconds := 4294967296,
    fraction := some 0 }

/-- Concrete TC packet with only the ACCEPTANCE ack flag set. -/
def samplePacketAcc : PusTcPacketRep :=
  { apid := 3, seqCountOrName := 4, ackFlags := ackAcceptance }

/-- Report produced by a failed-acceptance call on `samplePacketAcc` with no
failure code and no failure data. -/
def sampleFailReport : VerifReport :=
  generateReport 1 2 sampleCuc samplePacketAcc subFailedAcceptance false none none

/-- Concrete result of `create(0, 0)` with the default format and a 2.5 s
clock. -/
def sampleCucClock : CucTime :=
  { format := sampleFormat, hasPreamble := true, seconds := 2, fraction := some 32768 }

/-! ## Claim theorems -/

/-! Helper lemmas on `Nat` bit operations. -/

theorem xor_shiftLeft_distrib (a b n : Nat) :
    (a ^^^ b) <<< n = (a <<< n) ^^^ (b <<< n) := by
  apply Nat.eq_of_testBit_eq
  intro i
  simp only [Nat.testBit_shiftLeft, Nat.testBit_xor]
  by_cases h : n ≤ i <;> simp [h]

theorem and_xor_distrib (a b m : Nat) :
    (a ^^^ b) &&& m = (a &&& m) ^^^ (b &&& m) := by
  apply Nat.eq_of_testBit_eq
  intro i
  simp only [Nat.testBit_land, Nat.testBit_xor]
  cases a.testBit i <;> cases b.testBit i <;> cases m.testBit i <;> rfl

theorem and_mask16_eq_mod (x : Nat) : x &&& 0xffff = x % 2 ^ 16 := by
  have h : (0xffff : Nat) = 2 ^ 16 - 1 := by norm_num
  rw [h, Nat.and_pow_two_sub_one_eq_mod]

theorem and_mask16_of_lt {x : Nat} (h : x < 2 ^ 16) : x &&& 0xffff = x := by
  rw [and_mask16_eq_mod, Nat.mod_eq_of_lt h]

theorem and_mask8_eq_mod (x : Nat) : x &&& 0xff = x % 2 ^ 8 := by
  have h : (0xff : Nat) = 2 ^ 8 - 1 := by norm_num
  rw [h, Nat.and_pow_two_sub_one_eq_mod]

theorem and_mask8_lt (x : Nat) : x &&& 0xff < 2 ^ 8 := by
  rw [and_mask8_eq_mod]
  exact Nat.mod_lt _ (by norm_num)

theorem shiftLeft_one_eq (x : Nat) : x <<< 1 = x * 2 := by
  simp [Nat.shiftLeft_eq]

theorem shiftLeft16_and_mask16 (x : Nat) : (x <<< 16) &&& 0xffff = 0 := by
  rw [and_mask16_eq_mod, Nat.shiftLeft_eq, Nat.mul_mod_left]

theorem hi_lo_decomp (x : Nat) : ((x >>> 8) <<< 8) ^^^ (x &&& 0xff) = x := by
  apply Nat.eq_of_testBit_eq
  intro i
  simp only [Nat.testBit_xor, Nat.testBit_shiftLeft, Nat.testBit_shiftRight,
    Nat.testBit_land]
  by_cases h : 8 ≤ i
  · have h8 : 8 + (i - 8) = i := by omega
    have hff : (0xff : Nat).testBit i = false := by
      apply Nat.testBit_eq_false_of_lt
      calc (0xff : Nat) < 2 ^ 8 := by norm_num
        _ ≤ 2 ^ i := Nat.pow_le_pow_right (by norm_num) h
    simp [h, h8, hff]
  · have hff : (0xff : Nat).testBit i = true := by
      interval_cases i <;> rfl
    simp [h, hff]

theorem toNat_testBit_zero (v : Bool) : (v.toNat).testBit 0 = v := by
  cases v <;> rfl

theorem toNat_testBit_succ (v : Bool) (k : Nat) : (v.toNat).testBit (k + 1) = false := by
  apply Nat.testBit_eq_false_of_lt
  calc v.toNat ≤ 1 := Bool.toNat_le v
    _ < 2 ^ (k + 1) := by
        have : (2 : Nat) ^ 1 ≤ 2 ^ (k + 1) := Nat.pow_le_pow_right (by norm_num) (by omega)
        omega

/-- Rewriting `crcBitStep` as an unconditional XOR form. -/
theorem crcBitStep_eq (crc : Nat) (b : Bool) :
    crcBitStep crc b =
      ((crc <<< 1) &&& 0xffff) ^^^ (if crc.testBit 15 ≠ b then 0x1021 else 0) := by
  unfold crcBitStep
  split <;> simp

/-- A term XORed into the register below the decision bit rides along through
the bit-serial steps: it never influences the feedback decisions, and is
simply shifted left by the number of steps. -/
theorem crcBits_xor_low (bs : List Bool) :
    ∀ s t : Nat, t <<< bs.length < 2 ^ 16 →
      crcBits (s ^^^ t) bs = crcBits s bs ^^^ (t <<< bs.length) := by
  induction bs with
  | nil => intro s t _; simp [crcBits]
  | cons b rest ih =>
    intro s t h
    have hlen : (b :: rest).length = rest.length + 1 := rfl
    have hshift1 : t <<< 1 ≤ t <<< (rest.length + 1) := by
      simp only [Nat.shiftLeft_eq]
      exact Nat.mul_le_mul_left t (Nat.pow_le_pow_right (by norm_num) (by omega))
    have ht1 : t <<< 1 < 2 ^ 16 := lt_of_le_of_lt hshift1 (hlen ▸ h)
    have ht15 : t < 2 ^ 15 := by
      have := shiftLeft_one_eq t
      omega
    have hbit : (s ^^^ t).testBit 15 = s.testBit 15 := by
      rw [Nat.testBit_xor, Nat.testBit_eq_false_of_lt ht15, Bool.xor_false]
    have hstep : crcBitStep (s ^^^ t) b = crcBitStep s b ^^^ (t <<< 1) := by
      rw [crcBitStep_eq, crcBitStep_eq, hbit, xor_shiftLeft_distrib, and_xor_distrib,
        and_mask16_of_lt ht1]
      generalize (if s.testBit 15 ≠ b then 0x1021 else 0) = c
      generalize (s <<< 1) &&& 0xffff = a
      rw [Nat.xor_assoc, Nat.xor_comm (t <<< 1) c, ← Nat.xor_assoc]
    have hcomb : (t <<< 1) <<< rest.length = t <<< (rest.length + 1) := by
      rw [← Nat.shiftLeft_add, Nat.add_comm]
    have hrest : (t <<< 1) <<< rest.length < 2 ^ 16 := by
      rw [hcomb]
      exact hlen ▸ h
    calc crcBits (s ^^^ t) (b :: rest)
        = crcBits (crcBitStep (s ^^^ t) b) rest := rfl
      _ = crcBits (crcBitStep s b ^^^ (t <<< 1)) rest := by rw [hstep]
      _ = crcBits (crcBitStep s b) rest ^^^ ((t <<< 1) <<< rest.length) := ih _ _ hrest
      _ = crcBits s (b :: rest) ^^^ (t <<< (b :: rest).length) := by
          rw [hcomb, hlen]
          rfl


theorem ofBits_lt (bs : List Bool) : ofBits bs < 2 ^ bs.length := by
  induction bs with
  | nil => simp [ofBits]
  | cons b rest ih =>
    have hb : b.toNat <<< rest.length < 2 ^ (rest.length + 1) := by
      rw [Nat.shiftLeft_eq]
      have : b.toNat ≤ 1 := Bool.toNat_le b
      have h2 : (2 : Nat) ^ rest.length < 2 ^ (rest.length + 1) := by
        apply Nat.pow_lt_pow_right (by norm_num) (by omega)
      calc b.toNat * 2 ^ rest.length ≤ 1 * 2 ^ rest.length := by
            exact Nat.mul_le_mul_right _ this
        _ = 2 ^ rest.length := by ring
        _ < 2 ^ (rest.length + 1) := h2
    have hr : ofBits rest < 2 ^ (rest.length + 1) := by
      calc ofBits rest < 2 ^ rest.length := ih
        _ ≤ 2 ^ (rest.length + 1) := Nat.pow_le_pow_right (by norm_num) (by omega)
    exact Nat.xor_lt_two_pow hb hr

/-- Feeding data bits into the bit-serial CRC is the same as XORing their
value into the top of the register first and then feeding zero bits. -/
theorem crcBits_absorb (bs : List Bool) :
    ∀ s : Nat, bs.length ≤ 16 →
      crcBits s bs =
        crcBits (s ^^^ (ofBits bs <<< (16 - bs.length))) (List.replicate bs.length false) := by
  induction bs with
  | nil => intro s _; simp [crcBits, ofBits]
  | cons b rest ih =>
    intro s h
    have hn : rest.length ≤ 15 := by
      have : (b :: rest).length = rest.length + 1 := rfl
      omega
    set n := rest.length with hn_def
    set w := ofBits rest with hw_def
    have hw : w < 2 ^ n := ofBits_lt rest
    have hv : ofBits (b :: rest) = (b.toNat <<< n) ^^^ w := rfl
    have hlen : (b :: rest).length = n + 1 := rfl
    have hsub : 16 - (n + 1) = 15 - n := by omega
    -- the shifted value splits into the head bit (landing on bit 15) and the tail
    have hsplit : ofBits (b :: rest) <<< (15 - n) =
        (b.toNat <<< 15) ^^^ (w <<< (15 - n)) := by
      rw [hv, xor_shiftLeft_distrib, ← Nat.shiftLeft_add]
      have : n + (15 - n) = 15 := by omega
      rw [this]
    -- the head bit of the offset is exactly the data bit at position 15
    have htop : ((b.toNat <<< 15) ^^^ (w <<< (15 - n))).testBit 15 = b := by
      rw [Nat.testBit_xor, Nat.testBit_shiftLeft, Nat.testBit_shiftLeft]
      have h2 : w.testBit (15 - (15 - n)) = false := by
        have : 15 - (15 - n) = n := by omega
        rw [this]
        exact Nat.testBit_eq_false_of_lt hw
      simp [h2]
      cases b <;> rfl
    have hbit : (s ^^^ (ofBits (b :: rest) <<< (15 - n))).testBit 15 =
        ((s.testBit 15).xor b) := by
      rw [Nat.testBit_xor, hsplit, htop]
    -- after one zero step, the offset becomes the tail value shifted into place
    have hshifted : ((ofBits (b :: rest) <<< (15 - n)) <<< 1) &&& 0xffff =
        w <<< (16 - n) := by
      rw [hsplit, xor_shiftLeft_distrib, and_xor_distrib]
      have hb16 : (b.toNat <<< 15) <<< 1 = b.toNat <<< 16 := by
        rw [← Nat.shiftLeft_add]
      have hw16 : (w <<< (15 - n)) <<< 1 = w <<< (16 - n) := by
        rw [← Nat.shiftLeft_add]
        have : 15 - n + 1 = 16 - n := by omega
        rw [this]
      rw [hb16, hw16, shiftLeft16_and_mask16, and_mask16_of_lt, Nat.zero_xor]
      calc w <<< (16 - n) = w * 2 ^ (16 - n) := Nat.shiftLeft_eq ..
        _ < 2 ^ n * 2 ^ (16 - n) := by
            exact (Nat.mul_lt_mul_right (Nat.two_pow_pos (16 - n))).mpr hw
        _ = 2 ^ 16 := by
            rw [← pow_add]
            congr 1
            omega
    -- one zero step on the offset state equals the data step plus the new offset
    have hstep : crcBitStep (s ^^^ (ofBits (b :: rest) <<< (15 - n))) false =
        crcBitStep s b ^^^ (w <<< (16 - n)) := by
      rw [crcBitStep_eq, crcBitStep_eq, hbit, xor_shiftLeft_distrib, and_xor_distrib,
        hshifted]
      have hcond : (if ((s.testBit 15).xor b) ≠ false then (0x1021 : Nat) else 0) =
          (if s.testBit 15 ≠ b then (0x1021 : Nat) else 0) := by
        cases hsb : s.testBit 15 <;> cases hbb : b <;> simp
      rw [hcond]
      generalize (if s.testBit 15 ≠ b then (0x1021 : Nat) else 0) = c
      generalize (s <<< 1) &&& 0xffff = a
      rw [Nat.xor_assoc, Nat.xor_comm (w <<< (16 - n)) c, ← Nat.xor_assoc]
    calc crcBits s (b :: rest)
        = crcBits (crcBitStep s b) rest := rfl
      _ = crcBits (crcBitStep s b ^^^ (w <<< (16 - n)))
            (List.replicate n false) := ih (crcBitStep s b) (by omega)
      _ = crcBits (crcBitStep (s ^^^ (ofBits (b :: rest) <<< (15 - n))) false)
            (List.replicate n false) := by rw [hstep]
      _ = crcBits (s ^^^ (ofBits (b :: rest) <<< (16 - (b :: rest).length)))
            (List.replicate (b :: rest).length false) := by
          rw [hlen, hsub, List.replicate_succ]
          rfl

theorem byteBits_and_mask8 (b : Nat) : byteBits (b &&& 0xff) = byteBits b := by
  have hbit : ∀ k, k < 8 → (b &&& 0xff).testBit k = b.testBit k := by
    intro k hk
    rw [Nat.testBit_land]
    have hff : (0xff : Nat).testBit k = true := by interval_cases k <;> rfl
    simp [hff]
  simp only [byteBits]
  rw [hbit 7 (by norm_num), hbit 6 (by norm_num), hbit 5 (by norm_num),
    hbit 4 (by norm_num), hbit 3 (by norm_num), hbit 2 (by norm_num),
    hbit 1 (by norm_num), hbit 0 (by norm_num)]

theorem ofBits_byteBits_small : ∀ m : Fin 256, ofBits (byteBits m.val) = m.val := by
  decide

theorem ofBits_byteBits (b : Nat) : ofBits (byteBits b) = b &&& 0xff := by
  rw [← byteBits_and_mask8]
  exact ofBits_byteBits_small ⟨b &&& 0xff, and_mask8_lt b⟩

theorem byteBits_length (b : Nat) : (byteBits b).length = 8 := rfl

theorem tab_entry_eq : ∀ i : Fin 256,
    initial i.val &&& 0xffff = crcBits (i.val <<< 8) (List.replicate 8 false) := by
  decide

theorem tab_getD (i : Nat) (h : i < 256) : tab.getD i 0 = initial i := by
  have hlen : i < tab.length := by simpa [tab] using h
  rw [List.getD_eq_getElem tab 0 hlen]
  simp [tab]

theorem shiftLeft8_and_mask16 (x : Nat) : (x <<< 8) &&& 0xffff = (x &&& 0xff) <<< 8 := by
  apply Nat.eq_of_testBit_eq
  intro i
  simp only [Nat.testBit_land, Nat.testBit_shiftLeft]
  by_cases h8 : 8 ≤ i
  · by_cases h16 : i < 16
    · have hff : (0xffff : Nat).testBit i = true := by interval_cases i <;> rfl
      have hff8 : (0xff : Nat).testBit (i - 8) = true := by interval_cases i <;> rfl
      simp [h8, hff, hff8]
    · have hff : (0xffff : Nat).testBit i = false := by
        apply Nat.testBit_eq_false_of_lt
        calc (0xffff : Nat) < 2 ^ 16 := by norm_num
          _ ≤ 2 ^ i := Nat.pow_le_pow_right (by norm_num) (by omega)
      have hff8 : (0xff : Nat).testBit (i - 8) = false := by
        apply Nat.testBit_eq_false_of_lt
        calc (0xff : Nat) < 2 ^ 8 := by norm_num
          _ ≤ 2 ^ (i - 8) := Nat.pow_le_pow_right (by norm_num) (by omega)
      simp [h8, hff, hff8]
  · simp [h8]

/-- Core equivalence: one table-driven update equals eight bit-serial steps. -/
theorem updateCrc_eq_specUpdate (crc byte : Nat) (h : crc < 2 ^ 16) :
    updateCrc crc byte = crcSpecUpdate crc byte := by
  have hhi : crc >>> 8 < 2 ^ 8 := by
    rw [Nat.shiftRight_eq_div_pow]
    exact Nat.div_lt_of_lt_mul (by norm_num at h ⊢; omega)
  have hidx : (crc >>> 8) ^^^ (byte &&& 0xff) < 256 :=
    Nat.xor_lt_two_pow hhi (and_mask8_lt byte)
  set idx := (crc >>> 8) ^^^ (byte &&& 0xff) with hidx_def
  -- right-hand side: absorb the byte, split off the low register byte
  have hrhs : crcSpecUpdate crc byte =
      crcBits (idx <<< 8) (List.replicate 8 false) ^^^ ((crc &&& 0xff) <<< 8) := by
    unfold crcSpecUpdate
    rw [crcBits_absorb (byteBits byte) crc (by norm_num [byteBits_length]),
      byteBits_length, ofBits_byteBits]
    have hdec : crc ^^^ ((byte &&& 0xff) <<< (16 - 8)) =
        (idx <<< 8) ^^^ (crc &&& 0xff) := by
      conv_lhs => rw [← hi_lo_decomp crc]
      rw [hidx_def, xor_shiftLeft_distrib]
      show ((crc >>> 8) <<< 8 ^^^ (crc &&& 0xff)) ^^^ ((byte &&& 0xff) <<< 8) =
        ((crc >>> 8) <<< 8 ^^^ (byte &&& 0xff) <<< 8) ^^^ (crc &&& 0xff)
      rw [Nat.xor_assoc, Nat.xor_assoc, Nat.xor_comm (crc &&& 0xff)]
    rw [hdec]
    have hlow : (crc &&& 0xff) <<< (List.replicate 8 false).length < 2 ^ 16 := by
      have h8 : crc &&& 0xff < 2 ^ 8 := and_mask8_lt crc
      simp only [List.length_replicate]
      rw [Nat.shiftLeft_eq]
      calc (crc &&& 0xff) * 2 ^ 8 < 2 ^ 8 * 2 ^ 8 :=
            (Nat.mul_lt_mul_right (Nat.two_pow_pos 8)).mpr h8
        _ = 2 ^ 16 := by norm_num
    have := crcBits_xor_low (List.replicate 8 false) (idx <<< 8) (crc &&& 0xff) hlow
    simpa using this
  -- left-hand side: the table entry is the bit-serial run over the index byte
  have hlhs : updateCrc crc byte =
      ((crc &&& 0xff) <<< 8) ^^^ (initial idx &&& 0xffff) := by
    have hmask : idx &&& 0xff = idx := by
      rw [and_mask8_eq_mod]
      exact Nat.mod_eq_of_lt (by simpa using hidx)
    simp only [updateCrc]
    rw [← hidx_def, hmask, tab_getD idx hidx, and_xor_distrib, shiftLeft8_and_mask16]
  rw [hlhs, hrhs, tab_entry_eq ⟨idx, hidx⟩, Nat.xor_comm]

theorem updateCrc_lt (crc byte : Nat) : updateCrc crc byte < 2 ^ 16 := by
  simp only [updateCrc]
  exact lt_of_le_of_lt Nat.and_le_right (by norm_num)

theorem foldl_updateCrc_eq (buffer : List Nat) :
    ∀ crc : Nat, crc < 2 ^ 16 →
      buffer.foldl updateCrc crc = buffer.foldl crcSpecUpdate crc := by
  induction buffer with
  | nil => intro crc _; rfl
  | cons b rest ih =>
    intro crc h
    show rest.foldl updateCrc (updateCrc crc b) = rest.foldl crcSpecUpdate (crcSpecUpdate crc b)
    rw [← updateCrc_eq_specUpdate crc b h]
    exact ih (updateCrc crc b) (updateCrc_lt crc b)

theorem isOk_ok {ε α : Type} (a : α) : (Except.ok a : Except ε α).isOk = true := rfl

theorem isOk_error {ε α : Type} (e : ε) : (Except.error e : Except ε α).isOk = false := rfl

/-- Closed form of a successful `cucInit`. -/
theorem cucInit_ok (s f : Int) (bl fl : Nat) (hp : Bool) (e : Option Int)
    (pre : Option (List Nat)) (h1 : 1 ≤ bl) (h2 : bl ≤ 7) (h3 : fl ≤ 10) :
    cucInit s f bl fl hp e pre = .ok
      { format := ⟨bl, fl, epochOf e, tcIdOf e, preambleOf bl fl e pre⟩,
        hasPreamble := hp, seconds := s,
        fraction := if fl ≠ 0 then some f else none } := by
  unfold cucInit mkTimeFormat
  rw [if_neg (not_not_intro ⟨h1, h2⟩), if_neg (not_not_intro h3)]
  rfl

/-- Inversion of a successful `cucInit`. -/
theorem cucInit_inv (s f : Int) (bl fl : Nat) (hp : Bool) (e : Option Int)
    (pre : Option (List Nat)) (ct : CucTime)
    (h : cucInit s f bl fl hp e pre = .ok ct) :
    ct = { format := ⟨bl, fl, epochOf e, tcIdOf e, preambleOf bl fl e pre⟩,
           hasPreamble := hp, seconds := s,
           fraction := if fl ≠ 0 then some f else none } ∧
      1 ≤ bl ∧ bl ≤ 7 ∧ fl ≤ 10 := by
  by_cases h1 : 1 ≤ bl ∧ bl ≤ 7
  · by_cases h3 : fl ≤ 10
    · rw [cucInit_ok s f bl fl hp e pre h1.1 h1.2 h3] at h
      cases h
      exact ⟨rfl, h1.1, h1.2, h3⟩
    · unfold cucInit mkTimeFormat at h
      rw [if_neg (not_not_intro h1), if_pos h3] at h
      simp [Except.map] at h
  · unfold cucInit mkTimeFormat at h
    rw [if_pos h1] at h
    simp [Except.map] at h

/-- Success condition of `cucInit`. -/
theorem cucInit_isOk_iff (s f : Int) (bl fl : Nat) (hp : Bool) (e : Option Int)
    (pre : Option (List Nat)) :
    (cucInit s f bl fl hp e pre).isOk = true ↔ (1 ≤ bl ∧ bl ≤ 7 ∧ fl ≤ 10) := by
  by_cases h1 : 1 ≤ bl ∧ bl ≤ 7
  · by_cases h3 : fl ≤ 10
    · rw [cucInit_ok s f bl fl hp e pre h1.1 h1.2 h3, isOk_ok]
      exact iff_of_true rfl ⟨h1.1, h1.2, h3⟩
    · unfold cucInit mkTimeFormat
      rw [if_neg (not_not_intro h1), if_pos h3]
      exact iff_of_false (by simp [Except.map, isOk_error]) (by omega)
  · unfold cucInit mkTimeFormat
    rw [if_pos h1]
    exact iff_of_false (by simp [Except.map, isOk_error]) (by omega)

/-- C1: each of the four verification-stage calls emits a report exactly when
the packet's ack flag for that stage is set, and returns nothing (not an
error) otherwise; in particular, a packet with `ack_flags = ACCEPTANCE` makes
`accept` emit a report while `start`, `progress` and `complete` emit
nothing. -/
theorem C1_ack_gating (identApid identSeqCount : Nat) (time : CucTime)
    (p : PusTcPacketRep) (success : Bool) (fc : Option CommonErrorCode)
    (fd : Option (List Nat)) (apid seqName : Nat) :
    ((accept identApid identSeqCount time p success fc fd).isSome =
      p.ack ackAcceptance) ∧
    ((start identApid identSeqCount time p success fc fd).isSome =
      p.ack ackStartOfExecution) ∧
    ((progress identApid identSeqCount time p success fc fd).isSome =
      p.ack ackProgress) ∧
    ((complete identApid identSeqCount time p success fc fd).isSome =
      p.ack ackCompletion) ∧
    ((accept identApid identSeqCount time
        ⟨apid, seqName, ackAcceptance⟩ success fc fd).isSome = true ∧
      start identApid identSeqCount time
        ⟨apid, seqName, ackAcceptance⟩ success fc fd = none ∧
      progress identApid identSeqCount time
        ⟨apid, seqName, ackAcceptance⟩ success fc fd = none ∧
      complete identApid identSeqCount time
        ⟨apid, seqName, ackAcceptance⟩ success fc fd = none) := by
  refine ⟨?_, ?_, ?_, ?_, ?_, ?_, ?_, ?_⟩
  · unfold accept
    by_cases h : p.ack ackAcceptance = true <;> simp_all
  · unfold start
    by_cases h : p.ack ackStartOfExecution = true <;> simp_all
  · unfold progress
    by_cases h : p.ack ackProgress = true <;> simp_all
  · unfold complete
    by_cases h : p.ack ackCompletion = true <;> simp_all
  · unfold accept
    have h : PusTcPacketRep.ack ⟨apid, seqName, ackAcceptance⟩ ackAcceptance = true := by
      simp [PusTcPacketRep.ack, ackAcceptance]
    simp [h]
  · unfold start
    have h : PusTcPacketRep.ack ⟨apid, seqName, ackAcceptance⟩ ackStartOfExecution = false := by
      simp [PusTcPacketRep.ack, ackAcceptance, ackStartOfExecution]
    simp [h]
  · unfold progress
    have h : PusTcPacketRep.ack ⟨apid, seqName, ackAcceptance⟩ ackProgress = false := by
      simp [PusTcPacketRep.ack, ackAcceptance, ackProgress]
    simp [h]
  · unfold complete
    have h : PusTcPacketRep.ack ⟨apid, seqName, ackAcceptance⟩ ackCompletion = false := by
      simp [PusTcPacketRep.ack, ackAcceptance, ackCompletion]
    simp [h]

/-- C2: every report any of the four stage calls emits carries the packet's
`request_id()` alone as payload when the call reported success, and
`request_id()` followed by the one-byte failure code and the failure data when
it reported failure; an omitted (`None`) failure code is replaced by the
default `ILLEGAL_APP_DATA`, never dropped. -/
theorem C2_report_payload (identApid identSeqCount : Nat) (time : CucTime)
    (p : PusTcPacketRep) (success : Bool) (fc : Option CommonErrorCode)
    (fd : Option (List Nat)) (r : VerifReport)
    (h : accept identApid identSeqCount time p success fc fd = some r ∨
      start identApid identSeqCount time p success fc fd = some r ∨
      progress identApid identSeqCount time p success fc fd = some r ∨
      complete identApid identSeqCount time p success fc fd = some r) :
    r.payload =
      if success then p.requestId
      else
        p.requestId ++
          toBytesBE failureCodeWidth
            (match fc with
              | none => CommonErrorCode.illegalAppData
              | some c => if c.val = 0 then CommonErrorCode.illegalAppData else c).val ++
          fd.getD [] := by
  have hgen : ∀ sub, r = generateReport identApid identSeqCount time p sub success fc fd →
      r.payload =
        if success then p.requestId
        else
          p.requestId ++
            toBytesBE failureCodeWidth
              (match fc with
                | none => CommonErrorCode.illegalAppData
                | some c => if c.val = 0 then CommonErrorCode.illegalAppData else c).val ++
            fd.getD [] := by
    intro sub hr
    subst hr
    unfold generateReport
    cases success <;> simp
  rcases h with h | h | h | h
  · unfold accept at h
    by_cases hack : p.ack ackAcceptance = true
    · rw [if_neg (by simp [hack])] at h
      exact hgen _ (Option.some.inj h).symm
    · rw [if_pos (by simp_all)] at h
      cases h
  · unfold start at h
    by_cases hack : p.ack ackStartOfExecution = true
    · rw [if_neg (by simp [hack])] at h
      exact hgen _ (Option.some.inj h).symm
    · rw [if_pos (by simp_all)] at h
      cases h
  · unfold progress at h
    by_cases hack : p.ack ackProgress = true
    · rw [if_neg (by simp [hack])] at h
      exact hgen _ (Option.some.inj h).symm
    · rw [if_pos (by simp_all)] at h
      cases h
  · unfold complete at h
    by_cases hack : p.ack ackCompletion = true
    · rw [if_neg (by simp [hack])] at h
      exact hgen _ (Option.some.inj h).symm
    · rw [if_pos (by simp_all)] at h
      cases h

/-- C2 witness: a concrete failed-acceptance call with an omitted failure code
emits a report whose payload is the request id followed by the default
`ILLEGAL_APP_DATA` byte. -/
theorem C2_report_payload_witness :
    sampleFailReport.payload =
      if false then samplePacketAcc.requestId
      else
        samplePacketAcc.requestId ++
          toBytesBE failureCodeWidth
            (match (none : Option CommonErrorCode) with
              | none => CommonErrorCode.illegalAppData
              | some c => if c.val = 0 then CommonErrorCode.illegalAppData else c).val ++
          (Option.getD (none : Option (List Nat)) []) :=
  C2_report_payload 1 2 sampleCuc samplePacketAcc false none none
    sampleFailReport (Or.inl (by decide))

/-- C7: the table-driven `calculate` computes, on every buffer, exactly the
bit-serial CRC-16/CCITT with polynomial 0x1021, initial value 0xFFFF,
MSB-first and no final XOR; it is deterministic (a pure function of the
buffer) and returns 0xFFFF on the empty buffer. -/
theorem C7_crc_table_matches_bit_serial :
    (∀ buffer : List Nat, calculate buffer = crcSpec buffer) ∧
    calculate [] = 0xffff :=
  ⟨fun buffer => foldl_updateCrc_eq buffer crcPreset (by norm_num [crcPreset]), rfl⟩

/-- C8: the concrete TC packet vectors of the spec serialize byte-exactly,
and the trailing two bytes of the PEC-enabled vector are the CRC of all
preceding bytes. -/
theorem C8_concrete_vectors :
    pusTcSerialize 0x10 0x50 1 1 8 1 none [] false =
      [0x18, 0x10, 0xC0, 0x50, 0x00, 0x02, 0x11, 0x08, 0x01] ∧
    pusTcSerialize 0x10 0x50 1 1 8 1 (some 2) [] true =
      [0x18, 0x10, 0xC0, 0x50, 0x00, 0x05, 0x11, 0x08, 0x01, 0x02, 0x79, 0x4A] ∧
    word16be (calculate [0x18, 0x10, 0xC0, 0x50, 0x00, 0x05, 0x11, 0x08, 0x01, 0x02]) =
      [0x79, 0x4A] := by
  refine ⟨by decide, by decide, by decide⟩

/-- C3 counterexample: constructing a `CucTime` with `seconds = 2^32` and
`basic_unit_length = 4` (maximum representable `2^32 - 1`) succeeds and
returns the out-of-range value, contradicting the claim that construction
fails. -/
theorem C3_counterexample :
    cucInit 4294967296 0 4 2 true none none = .ok bigSecondsCuc ∧
    (4294967296 : Int) > 2 ^ (8 * 4) - 1 := by
  refine ⟨by decide, by decide⟩

/-- C3 amended: `CucTime` construction validates only the unit lengths
(`1 ≤ basic ≤ 7`, `frac ≤ 10`); the `seconds` and `fraction` arguments are
stored verbatim without any range check (range checks happen only in the
property setters), so construction succeeds even for out-of-range values. -/
theorem C3_amended (s f : Int) (bl fl : Nat) (hp : Bool) (e : Option Int)
    (pre : Option (List Nat)) :
    ((cucInit s f bl fl hp e pre).isOk = true ↔ (1 ≤ bl ∧ bl ≤ 7 ∧ fl ≤ 10)) ∧
    (∀ ct, cucInit s f bl fl hp e pre = .ok ct →
      ct.seconds = s ∧ ct.fraction = (if fl ≠ 0 then some f else none)) := by
  constructor
  · by_cases h1 : 1 ≤ bl ∧ bl ≤ 7
    · by_cases h2 : fl ≤ 10
      · unfold cucInit mkTimeFormat
        rw [if_neg (not_not_intro h1), if_neg (not_not_intro h2)]
        simp only [Except.map, Except.isOk]
        exact iff_of_true rfl ⟨h1.1, h1.2, h2⟩
      · unfold cucInit mkTimeFormat
        rw [if_neg (not_not_intro h1), if_pos h2]
        simp only [Except.map, Except.isOk]
        exact iff_of_false (by simp [Except.toBool]) (by omega)
    · unfold cucInit mkTimeFormat
      rw [if_pos h1]
      simp only [Except.map, Except.isOk]
      exact iff_of_false (by simp [Except.toBool]) (by omega)
  · intro ct hct
    by_cases h1 : 1 ≤ bl ∧ bl ≤ 7
    · by_cases h2 : fl ≤ 10
      · unfold cucInit mkTimeFormat at hct
        rw [if_neg (not_not_intro h1), if_neg (not_not_intro h2)] at hct
        simp only [Except.map] at hct
        cases hct
        exact ⟨rfl, rfl⟩
      · unfold cucInit mkTimeFormat at hct
        rw [if_neg (not_not_intro h1), if_pos h2] at hct
        simp only [Except.map] at hct
        simp at hct
    · unfold cucInit mkTimeFormat at hct
      rw [if_pos h1] at hct
      simp only [Except.map] at hct
      simp at hct

/-- C3 amended witness: the out-of-range instance above stores its arguments
verbatim. -/
theorem C3_amended_witness :
    bigSecondsCuc.seconds = 4294967296 ∧
    bigSecondsCuc.fraction = (if (2 : Nat) ≠ 0 then some 0 else none) :=
  (C3_amended 4294967296 0 4 2 true none none).2 bigSecondsCuc (by decide)

/-- C6 counterexample: a `CucTime` constructed with `frac_unit_length = 0`
stores no fraction, and converting it to float raises `TypeError` (modelled
`none`) instead of returning `seconds + fraction / 2^0`. -/
theorem C6_counterexample :
    Except.map cucFloat (cucInit 5 7 4 0 true none none) = .ok none ∧
    (none : Option ℚ) ≠ some ((5 : ℚ) + 7 / 2 ^ (0 * 8)) := by
  refine ⟨by decide, by simp⟩

/-- C6 amended: for every constructed `CucTime` with a nonzero fractional
unit length, conversion to float returns exactly
`seconds + fraction / 2^(8·frac_unit_length)`; with `frac_unit_length = 0`
the stored fraction is `None` and the conversion raises `TypeError` instead
of returning a number. -/
theorem C6_amended (s f : Int) (bl fl : Nat) (hp : Bool) (e : Option Int)
    (pre : Option (List Nat)) (ct : CucTime)
    (hok : cucInit s f bl fl hp e pre = .ok ct) :
    (fl ≠ 0 → cucFloat ct = some ((s : ℚ) + (f : ℚ) / (2 : ℚ) ^ (fl * 8))) ∧
    (fl = 0 → cucFloat ct = none) := by
  unfold cucInit mkTimeFormat at hok
  by_cases h1 : 1 ≤ bl ∧ bl ≤ 7
  · by_cases h2 : fl ≤ 10
    · simp only [if_neg (by simp [h1] : ¬¬(1 ≤ bl ∧ bl ≤ 7)),
        if_neg (by simp [h2] : ¬¬(fl ≤ 10)), Except.map] at hok
      cases hok
      constructor
      · intro hfl
        simp [cucFloat, hfl]
      · intro hfl
        simp [cucFloat, hfl]
    · simp [h1, h2, Except.map] at hok
  · simp [h1, Except.map] at hok

/-- C6 amended witness: the instance built from `seconds = 5, fraction = 7`
with a 2-byte fraction field converts to `5 + 7 / 2^16`. -/
theorem C6_amended_witness :
    (2 : Nat) ≠ 0 ∧ cucFloat sampleCuc57 = some ((5 : ℚ) + (7 : ℚ) / (2 : ℚ) ^ (2 * 8)) :=
  ⟨by decide, (C6_amended 5 7 4 2 true none none sampleCuc57 (by decide)).1 (by decide)⟩

/-- C9: assigning the `seconds` property a non-`int` or out-of-range value
raises `ValueError` and leaves the object unchanged (the assignment happens
only when the value is an in-range `int`); the `fraction` property behaves
the same, and on an instance whose fractional unit length is zero every
`fraction` assignment raises with the object unchanged. -/
theorem C9_setter_validation (ct : CucTime) (v : Option Int) :
    (((setSeconds ct v).2.isSome = true) ↔
      ¬∃ n, v = some n ∧ 0 ≤ n ∧ n ≤ 2 ^ (ct.format.basicUnitLength * 8) - 1) ∧
    ((setSeconds ct v).2.isSome = true → (setSeconds ct v).1 = ct) ∧
    ((setSeconds ct v).2 = none →
      ∃ n, v = some n ∧ (setSeconds ct v).1 = { ct with seconds := n }) ∧
    (ct.format.fracUnitLength ≠ 0 →
      (((setFraction ct v).2.isSome = true) ↔
        ¬∃ n, v = some n ∧ 0 ≤ n ∧ n ≤ 2 ^ (ct.format.fracUnitLength * 8) - 1)) ∧
    ((setFraction ct v).2.isSome = true → (setFraction ct v).1 = ct) ∧
    (ct.format.fracUnitLength = 0 →
      (setFraction ct v).2.isSome = true ∧ (setFraction ct v).1 = ct) := by
  refine ⟨?_, ?_, ?_, ?_, ?_, ?_⟩
  · unfold setSeconds
    cases v with
    | none => simp
    | some n =>
      by_cases h : 0 ≤ n ∧ n ≤ 2 ^ (ct.format.basicUnitLength * 8) - 1
      · simp [h]
      · simp only [if_neg h]
        simp only [Option.isSome_some, true_iff]
        intro hc
        rcases hc with ⟨m, hm, hm2⟩
        cases hm
        exact h hm2
  · unfold setSeconds
    cases v with
    | none => intro _; rfl
    | some n =>
      by_cases h : 0 ≤ n ∧ n ≤ 2 ^ (ct.format.basicUnitLength * 8) - 1
      · simp [h]
      · intro _
        simp [h]
  · unfold setSeconds
    cases v with
    | none => intro hc; cases hc
    | some n =>
      by_cases h : 0 ≤ n ∧ n ≤ 2 ^ (ct.format.basicUnitLength * 8) - 1
      · intro _
        exact ⟨n, rfl, by simp [h]⟩
      · intro hc
        simp [h] at hc
  · intro hfl
    unfold setFraction
    rw [if_neg hfl]
    cases v with
    | none => simp
    | some n =>
      by_cases h : 0 ≤ n ∧ n ≤ 2 ^ (ct.format.fracUnitLength * 8) - 1
      · simp [h]
      · simp only [if_neg h]
        simp only [Option.isSome_some, true_iff]
        intro hc
        rcases hc with ⟨m, hm, hm2⟩
        cases hm
        exact h hm2
  · unfold setFraction
    by_cases hfl : ct.format.fracUnitLength = 0
    · rw [if_pos hfl]
      intro _
      rfl
    · rw [if_neg hfl]
      cases v with
      | none => intro _; rfl
      | some n =>
        by_cases h : 0 ≤ n ∧ n ≤ 2 ^ (ct.format.fracUnitLength * 8) - 1
        · simp [h]
        · intro _
          simp [h]
  · intro hfl
    unfold setFraction
    rw [if_pos hfl]
    exact ⟨rfl, rfl⟩

/-- C9 witness: on the sample instance, an in-range assignment succeeds, an
out-of-range assignment errors and leaves the state unchanged, and a fraction
assignment on a fraction-less instance errors. -/
theorem C9_setter_validation_witness :
    (((setSeconds sampleCuc (some (2 ^ 40))).2.isSome = true) ↔
      ¬∃ n, (some (2 ^ 40 : Int)) = some n ∧ 0 ≤ n ∧
        n ≤ 2 ^ (sampleCuc.format.basicUnitLength * 8) - 1) ∧
    ((setSeconds sampleCuc (some (2 ^ 40))).2.isSome = true →
      (setSeconds sampleCuc (some (2 ^ 40))).1 = sampleCuc) :=
  ⟨(C9_setter_validation sampleCuc (some (2 ^ 40))).1,
   (C9_setter_validation sampleCuc (some (2 ^ 40))).2.1⟩

/-- C4 counterexample: with `has_preamble = False`, a caller-supplied width
pair `basic_unit_length = 1`, `frac_unit_length = 0` (a valid pair, with a
large-enough 2-byte buffer) is rejected by the argument check instead of
proceeding: Python truthiness makes `frac_unit_length = 0` count as
unsupplied. -/
theorem C4_counterexample :
    cucDeserialize [0, 0] false none (some 1) (some 0) =
      .error "If preamble not used CUC must be defined by the other arguments" := by
  decide

/-- C4 amended: `deserialize` with `has_preamble` false fails when either
width is unsupplied or supplied as zero (`frac_unit_length = 0` is conflated
with "missing"); with both widths nonzero it succeeds exactly when the buffer
has at least 2 bytes, the widths are within range, and the buffer covers the
seconds and fraction fields. With `has_preamble` true the caller-supplied
widths are ignored (the result equals the call without them), and a buffer
shorter than 2 bytes, or than the preamble-implied fields, fails. -/
theorem C4_amended :
    (∀ (buffer : List Nat) (hp : Bool) (e : Option Int) (b f : Option Nat),
      buffer.length < 2 → (cucDeserialize buffer hp e b f).isOk = false) ∧
    (∀ (buffer : List Nat) (e : Option Int) (b f : Option Nat),
      cucDeserialize buffer true e b f = cucDeserialize buffer true e none none) ∧
    (∀ (buffer : List Nat) (e : Option Int) (b f : Option Nat),
      (b = none ∨ b = some 0 ∨ f = none ∨ f = some 0) →
      (cucDeserialize buffer false e b f).isOk = false) ∧
    (∀ (buffer : List Nat) (e : Option Int) (bb ff : Nat), bb ≠ 0 → ff ≠ 0 →
      ((cucDeserialize buffer false e (some bb) (some ff)).isOk = true ↔
        (2 ≤ buffer.length ∧ bb ≤ 7 ∧ ff ≤ 10 ∧ bb + ff ≤ buffer.length))) ∧
    (∀ (buffer : List Nat) (e : Option Int) (tf : TimeFormat),
      tfDeserialize buffer = .ok tf →
      buffer.length < tf.preamble.length + tf.basicUnitLength + tf.fracUnitLength →
      (cucDeserialize buffer true e none none).isOk = false) := by
  refine ⟨?_, ?_, ?_, ?_, ?_⟩
  · intro buffer hp e b f h
    simp only [cucDeserialize]
    rw [if_pos h]
    rfl
  · intro buffer e b f
    by_cases hl : buffer.length < 2
    · simp only [cucDeserialize]
      rw [if_pos hl, if_pos hl]
    · simp only [cucDeserialize]
      rw [if_neg hl, if_neg hl]
      rw [if_neg (by simp : ¬((!true && !(truthyNat b && truthyNat f)) = true)),
        if_neg (by simp : ¬((!true && !(truthyNat none && truthyNat none)) = true))]
      rw [if_pos trivial, if_pos trivial]
  · intro buffer e b f hbf
    by_cases hl : buffer.length < 2
    · simp only [cucDeserialize]
      rw [if_pos hl]
      rfl
    · simp only [cucDeserialize]
      rw [if_neg hl]
      have htr : (truthyNat b && truthyNat f) = false := by
        rcases hbf with h | h | h | h <;> subst h <;>
          simp [truthyNat, Bool.and_eq_false_iff]
      rw [if_pos (by rw [htr]; rfl :
        (!false && !(truthyNat b && truthyNat f)) = true)]
      rfl
  · intro buffer e bb ff hbb hff
    by_cases hl : buffer.length < 2
    · simp only [cucDeserialize]
      rw [if_pos hl, isOk_error]
      exact iff_of_false (by simp) (by omega)
    · simp only [cucDeserialize]
      rw [if_neg hl]
      rw [if_neg (by simp [truthyNat, hbb, hff] :
        ¬((!false && !(truthyNat (some bb) && truthyNat (some ff))) = true))]
      rw [if_neg (by simp : ¬(false = true))]
      simp only [Option.getD_some]
      by_cases hlen : buffer.length < bb + ff
      · rw [if_pos hlen, isOk_error]
        exact iff_of_false (by simp) (by omega)
      · rw [if_neg hlen]
        rw [cucInit_isOk_iff]
        constructor
        · rintro ⟨hx, hy, hz⟩
          exact ⟨by omega, hy, hz, by omega⟩
        · rintro ⟨hx, hy, hz, hw⟩
          exact ⟨by omega, hy, hz⟩
  · intro buffer e tf htf hshort
    have hl : ¬(buffer.length < 2) := by
      intro hc
      unfold tfDeserialize at htf
      rw [if_pos hc] at htf
      cases htf
    simp only [cucDeserialize]
    rw [if_neg hl]
    rw [if_neg (by simp : ¬((!true && !(truthyNat none && truthyNat none)) = true))]
    rw [if_pos trivial, htf]
    show (if buffer.length < tf.preamble.length + tf.basicUnitLength + tf.fracUnitLength then
        (Except.error "Buffer too small to contain CUC" : Except String CucTime)
      else
        cucInit (↑(fromBytesBE ((buffer.drop tf.preamble.length).take tf.basicUnitLength)))
          (↑(fromBytesBE ((buffer.drop
            (tf.preamble.length + tf.basicUnitLength)).take tf.fracUnitLength)))
          tf.basicUnitLength tf.fracUnitLength true e (some tf.preamble)).isOk = false
    rw [if_pos hshort]
    rfl

/-- C4 amended witness: concrete instances of each conjunct — a 1-byte buffer
fails; on a preamble buffer the supplied widths are ignored; zero-width
supplied pairs fail; a supplied nonzero pair decodes exactly under the stated
bounds; a preamble buffer too short for its fields fails. -/
theorem C4_amended_witness :
    (cucDeserialize [5] true none none none).isOk = false ∧
    cucDeserialize [0x1E, 0, 0, 0, 100, 0x27, 0x10] true none (some 9) (some 9) =
      cucDeserialize [0x1E, 0, 0, 0, 100, 0x27, 0x10] true none none none ∧
    (cucDeserialize [0, 0] false none (some 1) (some 0)).isOk = false ∧
    ((cucDeserialize [0, 0, 0] false none (some 2) (some 1)).isOk = true ↔
      (2 ≤ 3 ∧ 2 ≤ 7 ∧ 1 ≤ 10 ∧ 2 + 1 ≤ 3)) ∧
    (cucDeserialize [0x1E, 0] true none none none).isOk = false :=
  ⟨C4_amended.1 [5] true none none none (by decide),
   C4_amended.2.1 [0x1E, 0, 0, 0, 100, 0x27, 0x10] none (some 9) (some 9),
   C4_amended.2.2.1 [0, 0] none (some 1) (some 0) (by decide),
   C4_amended.2.2.2.1 [0, 0, 0] none 2 1 (by decide) (by decide),
   C4_amended.2.2.2.2 [0x1E, 0] none ⟨4, 2, 1, 2, [0x1E]⟩ (by decide) (by decide)⟩

/-- Fractional part of an exact integer quotient, as a quotient of the
Euclidean remainder. -/
theorem emod_div_eq_fract (a : ℤ) (b : ℕ) (hb : 0 < b) :
    ((a % (b : ℤ) : ℤ) : ℚ) / (b : ℚ) =
      (a : ℚ) / (b : ℚ) - (⌊(a : ℚ) / (b : ℚ)⌋ : ℚ) := by
  have hmod : a % (b : ℤ) = a - (b : ℤ) * ⌊(a : ℚ) / (b : ℚ)⌋ :=
    Int.mod_nat_eq_sub_mul_floor_rat_div
  have hbq : ((b : ℚ)) ≠ 0 := by
    exact_mod_cast hb.ne'
  rw [hmod]
  push_cast
  field_simp

/-- Python `round` on the integer pair agrees with Python `round` on the
exact rational quotient. -/
theorem pyRoundDiv_eq_pyRoundQ (a : ℤ) (b : ℕ) (hb : 0 < b) :
    pyRoundDiv a (b : ℤ) = pyRoundQ ((a : ℚ) / (b : ℚ)) := by
  have hbq : (0 : ℚ) < (b : ℚ) := by exact_mod_cast hb
  have hfloor : ⌊(a : ℚ) / (b : ℚ)⌋ = a / (b : ℤ) :=
    Rat.floor_intCast_div_natCast a b
  have hfract := emod_div_eq_fract a b hb
  have h1 : ((a : ℚ) / (b : ℚ) - (⌊(a : ℚ) / (b : ℚ)⌋ : ℚ) < 1 / 2) ↔
      (2 * (a % (b : ℤ)) < (b : ℤ)) := by
    rw [← hfract, div_lt_div_iff₀ hbq (by norm_num : (0 : ℚ) < 2)]
    constructor
    · intro h
      have hc : ((2 * (a % (b : ℤ)) : ℤ) : ℚ) < (((b : ℤ)) : ℚ) := by
        push_cast
        push_cast at h
        linarith
      exact_mod_cast hc
    · intro h
      have hc : ((2 * (a % (b : ℤ)) : ℤ) : ℚ) < (((b : ℤ)) : ℚ) := by exact_mod_cast h
      push_cast at hc
      linarith
  have h2 : (1 / 2 < (a : ℚ) / (b : ℚ) - (⌊(a : ℚ) / (b : ℚ)⌋ : ℚ)) ↔
      ((b : ℤ) < 2 * (a % (b : ℤ))) := by
    rw [← hfract, div_lt_div_iff₀ (by norm_num : (0 : ℚ) < 2) hbq]
    constructor
    · intro h
      have hc : (((b : ℤ)) : ℚ) < ((2 * (a % (b : ℤ)) : ℤ) : ℚ) := by
        push_cast
        push_cast at h
        linarith
      exact_mod_cast hc
    · intro h
      have hc : (((b : ℤ)) : ℚ) < ((2 * (a % (b : ℤ)) : ℤ) : ℚ) := by exact_mod_cast h
      push_cast at hc
      linarith
  simp only [pyRoundQ, pyRoundDiv]
  simp only [h1, h2]
  simp only [hfloor]

/-- Conversion of the `mkRat` elapsed value to a cast quotient. -/
theorem mkRat_us (d : ℤ) : mkRat d 1000000 = (d : ℚ) / 1000000 := by
  rw [Rat.mkRat_eq_div]
  norm_num

/-- Floor of the elapsed-microseconds quotient is integer division by
1000000. -/
theorem floor_div_us (d : ℤ) : ⌊(d : ℚ) / 1000000⌋ = d / 1000000 := by
  have h := Rat.floor_intCast_div_natCast d 1000000
  exact_mod_cast h

/-- Specialization of `pyRoundDiv_eq_pyRoundQ` to the microsecond divisor. -/
theorem pyRoundDiv_us (a : ℤ) : pyRoundDiv a 1000000 = pyRoundQ ((a : ℚ) / 1000000) := by
  have h := pyRoundDiv_eq_pyRoundQ a 1000000 (by norm_num)
  have h1 : ((1000000 : ℕ) : ℤ) = (1000000 : ℤ) := by norm_num
  have h2 : ((1000000 : ℕ) : ℚ) = (1000000 : ℚ) := by norm_num
  rw [h1, h2] at h
  exact h

/-- Specialization of `emod_div_eq_fract` to the microsecond divisor. -/
theorem emod_div_us (d : ℤ) :
    ((d % 1000000 : ℤ) : ℚ) / 1000000 = (d : ℚ) / 1000000 - (⌊(d : ℚ) / 1000000⌋ : ℚ) := by
  have h := emod_div_eq_fract d 1000000 (by norm_num)
  have h1 : ((1000000 : ℕ) : ℤ) = (1000000 : ℤ) := by norm_num
  have h2 : ((1000000 : ℕ) : ℚ) = (1000000 : ℚ) := by norm_num
  rw [h1, h2] at h
  exact h

/-- C5: `from_datetime` fails exactly on timestamps before the epoch; on
success, with a fraction field present it sets `seconds` to the integer part
of the elapsed seconds and `fraction` to Python-`round` of the fractional
part scaled by `2^(8·frac_unit_length) − 1`, and with no fraction field it
sets `seconds` to Python-`round` of the elapsed seconds; in every successful
case it returns the full non-rounded elapsed-seconds value. -/
theorem C5_from_datetime (ct : CucTime) (dt : Int) :
    (dt < ct.format.epoch →
      fromDatetime ct dt = .error "Cannot set CUC to before epoch") ∧
    (ct.format.epoch ≤ dt → ct.format.fracUnitLength ≠ 0 →
      fromDatetime ct dt = .ok
        ({ ct with
            seconds := ⌊((dt - ct.format.epoch : ℤ) : ℚ) / 1000000⌋,
            fraction := some (pyRoundQ
              ((((dt - ct.format.epoch : ℤ) : ℚ) / 1000000 -
                  (⌊((dt - ct.format.epoch : ℤ) : ℚ) / 1000000⌋ : ℚ)) *
                ((2 : ℚ) ^ (ct.format.fracUnitLength * 8) - 1))) },
          ((dt - ct.format.epoch : ℤ) : ℚ) / 1000000)) ∧
    (ct.format.epoch ≤ dt → ct.format.fracUnitLength = 0 →
      fromDatetime ct dt = .ok
        ({ ct with
            seconds := pyRoundQ (((dt - ct.format.epoch : ℤ) : ℚ) / 1000000) },
          ((dt - ct.format.epoch : ℤ) : ℚ) / 1000000)) := by
  refine ⟨fun hlt => ?_, fun hge hfl => ?_, fun hge hfl => ?_⟩
  · simp only [fromDatetime]
    rw [if_pos hlt]
  · simp only [fromDatetime, usPerSec]
    rw [if_neg (not_lt.mpr hge), if_pos hfl]
    have hsec : (dt - ct.format.epoch) / (1000000 : ℤ) =
        ⌊((dt - ct.format.epoch : ℤ) : ℚ) / 1000000⌋ := (floor_div_us _).symm
    have hfr : pyRoundDiv
        ((dt - ct.format.epoch) % 1000000 * (2 ^ (ct.format.fracUnitLength * 8) - 1))
        1000000 =
        pyRoundQ
          ((((dt - ct.format.epoch : ℤ) : ℚ) / 1000000 -
              (⌊((dt - ct.format.epoch : ℤ) : ℚ) / 1000000⌋ : ℚ)) *
            ((2 : ℚ) ^ (ct.format.fracUnitLength * 8) - 1)) := by
      rw [pyRoundDiv_us]
      congr 1
      rw [← emod_div_us]
      push_cast
      ring
    rw [mkRat_us, hsec, hfr]
  · simp only [fromDatetime, usPerSec]
    rw [if_neg (not_lt.mpr hge), if_neg (by simp [hfl])]
    rw [mkRat_us, pyRoundDiv_us]

/-- C5 witness: on the default-format sample instance and a timestamp 2.5
seconds after the epoch, `from_datetime` succeeds and returns the stated
split. -/
theorem C5_from_datetime_witness :
    fromDatetime sampleCuc 2500000 = .ok
      ({ sampleCuc with
          seconds := ⌊((2500000 - sampleCuc.format.epoch : ℤ) : ℚ) / 1000000⌋,
          fraction := some (pyRoundQ
            ((((2500000 - sampleCuc.format.epoch : ℤ) : ℚ) / 1000000 -
                (⌊((2500000 - sampleCuc.format.epoch : ℤ) : ℚ) / 1000000⌋ : ℚ)) *
              ((2 : ℚ) ^ (sampleCuc.format.fracUnitLength * 8) - 1))) },
        ((2500000 - sampleCuc.format.epoch : ℤ) : ℚ) / 1000000) :=
  (C5_from_datetime sampleCuc 2500000).2.1 (by decide) (by decide)

/-- Rounding a quotient of at least one is at least one. -/
theorem pyRoundDiv_one_le (a b : Int) (hb : 0 < b) (h : b ≤ a) :
    1 ≤ pyRoundDiv a b := by
  have hq : 1 ≤ a / b := by
    rw [Int.le_ediv_iff_mul_le hb]
    omega
  simp only [pyRoundDiv]
  split_ifs <;> omega

/-- C10: `create` stores nonzero `(seconds, fraction)` arguments verbatim,
but the documented defaults `(0, 0)` are overwritten from the wall clock via
`from_datetime`; whenever the clock is at least one second past the epoch,
the resulting time field is therefore not the passed `(0, 0)`. -/
theorem C10_create_defaults_overwritten (s f : Int) (bl fl : Nat) (hp : Bool)
    (e : Option Int) (pre : Option (List Nat)) (now : Int) :
    (¬(s = 0 ∧ f = 0) →
      cucCreate s f bl fl hp e pre now = cucInit s f bl fl hp e pre) ∧
    (∀ ct, ¬(s = 0 ∧ f = 0) → cucCreate s f bl fl hp e pre now = .ok ct →
      timeField ct = (s, if fl ≠ 0 then some f else none)) ∧
    (cucCreate 0 0 bl fl hp e pre now =
      (cucInit 0 0 bl fl hp e pre).bind fun ct => (fromDatetime ct now).map Prod.fst) ∧
    (∀ ct, cucCreate 0 0 bl fl hp e pre now = .ok ct →
      usPerSec ≤ now - epochOf e → 1 ≤ ct.seconds) := by
  have hcreate0 : cucCreate 0 0 bl fl hp e pre now =
      (cucInit 0 0 bl fl hp e pre).bind fun ct => (fromDatetime ct now).map Prod.fst := by
    simp only [cucCreate]
    split <;> rename_i x heq
    · rw [heq]
      rfl
    · rw [heq, if_pos ⟨trivial, trivial⟩]
      simp only [Except.bind]
      cases hfd : fromDatetime x now with
      | error err => rfl
      | ok pair => rfl
  have hverbatim : ¬(s = 0 ∧ f = 0) →
      cucCreate s f bl fl hp e pre now = cucInit s f bl fl hp e pre := by
    intro hne
    simp only [cucCreate]
    split <;> rename_i x heq
    · rw [heq]
    · rw [heq, if_neg hne]
  refine ⟨hverbatim, ?_, hcreate0, ?_⟩
  · intro ct hne hok
    rw [hverbatim hne] at hok
    have hinv := cucInit_inv s f bl fl hp e pre ct hok
    rw [hinv.1]
    rfl
  · intro ct hok hnow
    rw [hcreate0] at hok
    cases hinit : cucInit 0 0 bl fl hp e pre with
    | error err =>
      rw [hinit] at hok
      cases hok
    | ok ct0 =>
      rw [hinit] at hok
      simp only [Except.bind] at hok
      have hinv := cucInit_inv 0 0 bl fl hp e pre ct0 hinit
      have hep : ct0.format.epoch = epochOf e := by rw [hinv.1]
      have hfl0 : ct0.format.fracUnitLength = fl := by rw [hinv.1]
      have husp : usPerSec = (1000000 : ℤ) := rfl
      have hlt : ¬(now < ct0.format.epoch) := by
        rw [hep]
        omega
      simp only [fromDatetime] at hok
      rw [if_neg hlt] at hok
      by_cases hfl : ct0.format.fracUnitLength ≠ 0
      · rw [if_pos hfl] at hok
        simp only [Except.map] at hok
        cases hok
        show 1 ≤ (now - ct0.format.epoch) / usPerSec
        rw [Int.le_ediv_iff_mul_le (by rw [husp]; norm_num)]
        rw [hep]
        omega
      · rw [if_neg hfl] at hok
        simp only [Except.map] at hok
        cases hok
        show 1 ≤ pyRoundDiv (now - ct0.format.epoch) usPerSec
        apply pyRoundDiv_one_le
        · rw [husp]
          norm_num
        · rw [hep]
          omega

/-- C10 witness: with a 2.5 s clock, `create(5, 6)` stores the arguments
verbatim while `create(0, 0)` yields clock-derived values with a nonzero
seconds field. -/
theorem C10_create_defaults_overwritten_witness :
    cucCreate 5 6 4 2 true none none 2500000 = cucInit 5 6 4 2 true none none ∧
    timeField sampleCuc57 = (5, if (2 : Nat) ≠ 0 then some (7 : Int) else none) ∧
    (1 : Int) ≤ sampleCucClock.seconds := by
  refine ⟨?_, ?_, ?_⟩
  · exact (C10_create_defaults_overwritten 5 6 4 2 true none none 2500000).1 (by decide)
  · exact (C10_create_defaults_overwritten 5 7 4 2 true none none 2500000).2.1
      sampleCuc57 (by decide) (by decide)
  · exact (C10_create_defaults_overwritten 0 0 4 2 true none none 2500000).2.2.2
      sampleCucClock (by decide) (by decide)

end Puslib
